import Mathlib

/-!
Verification of the memoization engine in `src/index.ts` (the latest design:
`memoize`, `memoizeClear` and the timer bookkeeping around them).

The embedding is a shallow one:

* JavaScript numbers that matter here (the `maxAge` option and the stored
  expiry timestamps) are embedded as `JSNum`, an `Int` together with the
  non-finite values `NaN` and the two infinities; the JS comparison and
  truthiness rules are spelled out explicitly (`jsLt`, `jsGt`, `jsTruthy`).
* The default cache (`new Map()`) and any user supplied store are embedded as
  an association list with unique keys plus a flag recording whether the
  store has a `clear` method (`CacheStorage`).
* `Date.now()`, `setTimeout` and `clearTimeout` are embedded as explicit
  state: `MemoState` carries the current time and the list of still pending
  timers, and `advanceTime` moves the clock forward, firing every timer that
  has come due (each fired timer performs its callback `cache.delete(key)`).
* The two module level `WeakMap`s (`cacheStore`, keyed by the returned
  memoized function, and `cacheTimerStore`, keyed by the function the timers
  were registered under) are embedded by giving every function object an
  identity (`Nat`): a `WrapConfig` records the identity of the target
  (`targetId`) and of the returned wrapper (`wrapperId`), `MemoState.registered`
  is the set of keys of `cacheStore`, and each pending timer records the
  `cacheTimerStore` key it was added under (`TimerRec.owner`).
* Function calls are embedded with an explicit invocation counter: a target
  is a function `Nat → A → Except E V` of the number of earlier invocations
  and the argument list, returning either a value or a thrown error.
-/

namespace Memoize

/-- The JavaScript numbers relevant to `maxAge` handling: finite integral
values, the two infinities and `NaN`. -/
inductive JSNum where
  | num (v : Int)
  | posInf
  | negInf
  | nan
deriving DecidableEq, Repr

/-- JavaScript `<` on `JSNum`: any comparison with `NaN` is `false`. -/
def jsLt : JSNum → JSNum → Bool
  | .num a, .num b => a < b
  | .num _, .posInf => true
  | .negInf, .num _ => true
  | .negInf, .posInf => true
  | _, _ => false

/-- JavaScript `>` on `JSNum`. -/
def jsGt (a b : JSNum) : Bool := jsLt b a

/-- JavaScript truthiness of a number: `0` and `NaN` are falsy. -/
def jsTruthy : JSNum → Bool
  | .num v => v != 0
  | .nan => false
  | _ => true

/-- JavaScript `+` on `JSNum` (used for `Date.now() + maxAge`). -/
def jsAdd : JSNum → JSNum → JSNum
  | .num a, .num b => .num (a + b)
  | .nan, _ => .nan
  | _, .nan => .nan
  | .posInf, .negInf => .nan
  | .negInf, .posInf => .nan
  | .posInf, _ => .posInf
  | _, .posInf => .posInf
  | .negInf, _ => .negInf
  | _, .negInf => .negInf

/-- The content stored in the cache for one key: `{data, maxAge}` where the
`maxAge` field holds the absolute expiry timestamp (`CacheStorageContent`
in src/index.ts). -/
structure CacheStorageContent (V : Type) where
  data : V
  maxAge : JSNum
deriving DecidableEq, Repr

/-- Association list lookup, the embedding of `Map.prototype.get`. -/
def lookupEntry {K V : Type} [DecidableEq K] :
    List (K × CacheStorageContent V) → K → Option (CacheStorageContent V)
  | [], _ => none
  | (k', e) :: rest, k => if k' = k then some e else lookupEntry rest k

/-- Association list update, the embedding of `Map.prototype.set`: replaces
the binding if the key is present, appends it otherwise. -/
def setEntryList {K V : Type} [DecidableEq K] :
    List (K × CacheStorageContent V) → K → CacheStorageContent V →
    List (K × CacheStorageContent V)
  | [], k, e => [(k, e)]
  | (k', e') :: rest, k, e =>
    if k' = k then (k, e) :: rest else (k', e') :: setEntryList rest k e

/-- Association list removal, the embedding of `Map.prototype.delete`
(keys are unique in every reachable store, so removing the first binding
is removing the binding). -/
def deleteEntryList {K V : Type} [DecidableEq K] :
    List (K × CacheStorageContent V) → K → List (K × CacheStorageContent V)
  | [], _ => []
  | (k', e') :: rest, k =>
    if k' = k then rest else (k', e') :: deleteEntryList rest k

/-- A cache store (`CacheStorage` in src/index.ts): the bindings plus
whether the store has a `clear` method (`Map` does, `WeakMap` does not). -/
structure CacheStorage (K V : Type) where
  entries : List (K × CacheStorageContent V)
  hasClear : Bool
deriving DecidableEq, Repr

def CacheStorage.get {K V : Type} [DecidableEq K] (c : CacheStorage K V) (k : K) :
    Option (CacheStorageContent V) :=
  lookupEntry c.entries k

def CacheStorage.set {K V : Type} [DecidableEq K] (c : CacheStorage K V) (k : K)
    (e : CacheStorageContent V) : CacheStorage K V :=
  { c with entries := setEntryList c.entries k e }

def CacheStorage.delete {K V : Type} [DecidableEq K] (c : CacheStorage K V) (k : K) :
    CacheStorage K V :=
  { c with entries := deleteEntryList c.entries k }

def CacheStorage.clear {K V : Type} (c : CacheStorage K V) : CacheStorage K V :=
  { c with entries := [] }

/-- One pending `setTimeout` whose callback is `cache.delete(key)`
(src/index.ts lines 138-146). `owner` is the `cacheTimerStore` key the timer
was registered under — in the source that is `fn`, the target function. -/
structure TimerRec (K : Type) where
  owner : Nat
  fireAt : Int
  key : K
deriving DecidableEq, Repr

/-- The mutable world a memoized function interacts with: the clock, its
cache store, the pending timers and the keys of the module level
`cacheStore` WeakMap (one entry per function registered by `memoize`). -/
structure MemoState (K V : Type) where
  now : Int
  cache : CacheStorage K V
  timers : List (TimerRec K)
  registered : List Nat
deriving DecidableEq, Repr

/-- The configuration a call to `memoize(fn, {cacheKey, cache, maxAge})`
closes over. `argsFirst` is the embedding of `arguments_[0] as CacheKeyType`,
the default key derivation. -/
structure WrapConfig (A K : Type) where
  targetId : Nat
  wrapperId : Nat
  maxAge : Option JSNum
  cacheKey : Option (A → K)
  argsFirst : A → K

/-- Key derivation, src/index.ts line 123:
`cacheKey ? cacheKey(arguments_) : arguments_[0]`. -/
def deriveKey {A K : Type} (w : WrapConfig A K) (args : A) : K :=
  match w.cacheKey with
  | some f => f args
  | none => w.argsFirst args

/-- Outcome of the wrap-time part of `memoize` (src/index.ts lines 107-120):
return the target unchanged, return a fresh wrapper, or throw. -/
inductive SetupResult where
  | bypass
  | wrapped
  | setupError (msg : String)
deriving DecidableEq, Repr

/-- Wrap-time processing of the `maxAge` option, src/index.ts lines 107-120:
`maxAge === 0` returns the target itself; a numeric `maxAge` above
`2147483647` or below `0` throws a `TypeError`. -/
def memoizeSetup (maxAge : Option JSNum) : SetupResult :=
  if maxAge = some (.num 0) then .bypass
  else
    match maxAge with
    | some m =>
      if jsGt m (.num 2147483647) then
        .setupError "The `maxAge` option cannot exceed 2147483647."
      else if jsLt m (.num 0) then
        .setupError "The `maxAge` option should not be a negative number."
      else .wrapped
    | none => .wrapped

/-- Node clamps `setTimeout` delays outside `[1, 2147483647]` to `1`; the
delays reaching the scheduling branch are finite positive numbers or `NaN`. -/
def jsTimeoutDelay : JSNum → Int
  | .num v => if v < 1 then 1 else v
  | _ => 1

/-- The expiry timestamp stored with a fresh entry, src/index.ts line 134:
`maxAge ? Date.now() + maxAge : Number.POSITIVE_INFINITY`. -/
def jsExpiry (maxAge : Option JSNum) (now : Int) : JSNum :=
  match maxAge with
  | some m => if jsTruthy m then jsAdd (.num now) m else .posInf
  | none => .posInf

/-- The timer bookkeeping on a cache miss, src/index.ts lines 137-147: when
`typeof maxAge === 'number' && maxAge !== Number.POSITIVE_INFINITY`, schedule
`setTimeout(() => cache.delete(key), maxAge)` and add the timer to the
`cacheTimerStore` entry of `fn` — the target function, `w.targetId`. -/
def newTimers {A K : Type} (w : WrapConfig A K) (key : K) (now : Int)
    (timers : List (TimerRec K)) : List (TimerRec K) :=
  match w.maxAge with
  | some m =>
    if m ≠ JSNum.posInf then
      timers ++ [{ owner := w.targetId, fireAt := now + jsTimeoutDelay m, key := key }]
    else timers
  | none => timers

/-- One call of the returned wrapper, src/index.ts lines 122-150: derive the
key; if the store holds the key return the stored `data` (no expiry check);
otherwise invoke the target (a thrown error propagates before anything is
stored), store `{data, maxAge}` and schedule the eviction timer. The `Nat`
component counts target invocations. -/
def memoizedCall {A K V E : Type} [DecidableEq K] (w : WrapConfig A K)
    (target : Nat → A → Except E V) (args : A) (s : MemoState K V) (n : Nat) :
    Except E V × MemoState K V × Nat :=
  let key := deriveKey w args
  match s.cache.get key with
  | some cacheItem => (.ok cacheItem.data, s, n)
  | none =>
    match target n args with
    | .error e => (.error e, s, n + 1)
    | .ok result =>
      (.ok result,
        { s with
          cache := s.cache.set key { data := result, maxAge := jsExpiry w.maxAge s.now }
          timers := newTimers w key s.now s.timers },
        n + 1)

/-- Calling the function returned when `maxAge === 0`: it is the target
itself (src/index.ts line 108), so the call goes straight to the target and
touches no cache state. -/
def bypassStep {A K V E : Type} (target : Nat → A → Except E V) (args : A)
    (s : MemoState K V) (n : Nat) : Except E V × MemoState K V × Nat :=
  (target n args, s, n + 1)

/-- A sequence of direct calls to the unwrapped target, returning the list of
outcomes and the final invocation count. -/
def bypassCalls {A V E : Type} (target : Nat → A → Except E V) :
    List A → Nat → List (Except E V) × Nat
  | [], n => ([], n)
  | a :: rest, n =>
    let r := target n a
    let (rs, n') := bypassCalls target rest (n + 1)
    (r :: rs, n')

/-- The embedding of `memoizeClear(fn)`, src/index.ts lines 226-241: look the
function up in `cacheStore`; absent means a "not memoized" `TypeError`; a
store without `clear` means a "can't be cleared" `TypeError`; otherwise clear
the store and `clearTimeout` every timer found in `cacheTimerStore` under
the same function — errors are raised before anything is mutated. -/
def memoizeClear {K V : Type} [DecidableEq K] (fid : Nat) (s : MemoState K V) :
    Except String Unit × MemoState K V :=
  if fid ∈ s.registered then
    if s.cache.hasClear then
      (.ok (),
        { s with
          cache := s.cache.clear
          timers := s.timers.filter (fun t => t.owner != fid) })
    else (.error "The cache Map can\x27t be cleared!", s)
  else (.error "Can\x27t clear a function that was not memoized!", s)

/-- Moving the clock forward by `dt` milliseconds: every pending timer whose
deadline has passed fires once, performing its callback `cache.delete(key)`,
and is no longer pending. -/
def advanceTime {K V : Type} [DecidableEq K] (dt : Nat) (s : MemoState K V) :
    MemoState K V :=
  { s with
    now := s.now + (dt : Int)
    cache := (s.timers.filter (fun t => decide (t.fireAt ≤ s.now + (dt : Int)))).foldl
      (fun c t => c.delete t.key) s.cache
    timers := s.timers.filter (fun t => decide (¬ t.fireAt ≤ s.now + (dt : Int))) }

/-- The observable operations that can happen between two calls of one
memoized function: further calls, the passing of time, and `memoizeClear`. -/
inductive Op (A : Type) where
  | call (args : A)
  | advance (dt : Nat)
  | clear (fid : Nat)

/-- One operation acting on the state and the invocation counter. -/
def stepOp {A K V E : Type} [DecidableEq K] (w : WrapConfig A K)
    (target : Nat → A → Except E V) : Op A → MemoState K V × Nat → MemoState K V × Nat
  | .call a, (s, n) => (memoizedCall w target a s n).2
  | .advance dt, (s, n) => (advanceTime dt s, n)
  | .clear fid, (s, n) => ((memoizeClear fid s).2, n)

/-- Running a sequence of operations. -/
def runOps {A K V E : Type} [DecidableEq K] (w : WrapConfig A K)
    (target : Nat → A → Except E V) :
    List (Op A) → MemoState K V × Nat → MemoState K V × Nat
  | [], sn => sn
  | op :: rest, sn => runOps w target rest (stepOp w target op sn)

/-- Total time elapsed over a sequence of operations. -/
def totalAdvance {A : Type} : List (Op A) → Nat
  | [] => 0
  | .advance dt :: rest => dt + totalAdvance rest
  | _ :: rest => totalAdvance rest

/-- Whether a sequence of operations contains no `memoizeClear`. -/
def hasNoClear {A : Type} : List (Op A) → Bool
  | [] => true
  | .clear _ :: _ => false
  | _ :: rest => hasNoClear rest

/-- Modelled from the spec: `memoizeIsCached` is exported by the package and
exercised by src/test.ts and the type declarations, but its implementation is
absent from the sources in this snapshot. Per spec §4.6 it derives the key
exactly as the wrapper would, returns whether a live (non-expired) entry
currently exists — without invoking the target or mutating the cache — and
returns `false` for a function that was never memoized. -/
def memoizeIsCached {A K V : Type} [DecidableEq K] (w : WrapConfig A K) (fid : Nat)
    (args : A) (s : MemoState K V) : Bool :=
  if fid ∈ s.registered then
    match s.cache.get (deriveKey w args) with
    | some e => jsGt e.maxAge (.num s.now)
    | none => false
  else false

/-- Outcome of a call when configuration errors can be raised from the call
itself: a returned value, an error thrown by the target, or a `TypeError`
raised by `maxAge` result validation. -/
inductive ComputedOutcome (E V : Type) where
  | ok (v : V)
  | thrown (e : E)
  | configError (msg : String)
deriving DecidableEq, Repr

/-- Modelled from the spec: support for `maxAge` supplied as a function of
the call arguments is exercised by src/test.ts but its implementation is
absent from the sources in this snapshot. Per spec §4.3/§4.4 and the tests:
on a cache miss the TTL function is invoked exactly once, after the target
has been invoked, with the same argument list that produced the key; `NaN`
(and more generally a value that is neither finite, `0` nor `Infinity`)
raises a `TypeError`, a result above `2147483647` raises a `TypeError`, a
result of `0` (and, per the tests, any negative result) means the computed
value is returned without being stored, `Infinity` stores a never-expiring
entry, and a positive finite result stores the entry and schedules the
eviction timer. The last component of the result lists the argument lists
the TTL function was invoked with during this call. -/
def memoizedCallComputed {A K V E : Type} [DecidableEq K] (w : WrapConfig A K)
    (maxAgeFn : A → JSNum) (target : Nat → A → Except E V) (args : A)
    (s : MemoState K V) (n : Nat) :
    ComputedOutcome E V × MemoState K V × Nat × List A :=
  let key := deriveKey w args
  match s.cache.get key with
  | some cacheItem => (.ok cacheItem.data, s, n, [])
  | none =>
    match target n args with
    | .error e => (.thrown e, s, n + 1, [])
    | .ok result =>
      match maxAgeFn args with
      | .nan =>
        (.configError "The `maxAge` function must return a finite number, `0`, or `Infinity`.",
          s, n + 1, [args])
      | .negInf =>
        (.configError "The `maxAge` function must return a finite number, `0`, or `Infinity`.",
          s, n + 1, [args])
      | .posInf =>
        (.ok result,
          { s with cache := s.cache.set key { data := result, maxAge := .posInf } },
          n + 1, [args])
      | .num v =>
        if 2147483647 < v then
          (.configError "The `maxAge` function result cannot exceed 2147483647.",
            s, n + 1, [args])
        else if v ≤ 0 then (.ok result, s, n + 1, [args])
        else
          (.ok result,
            { s with
              cache := s.cache.set key { data := result, maxAge := .num (s.now + v) }
              timers := s.timers ++ [{ owner := w.targetId, fireAt := s.now + v, key := key }] },
            n + 1, [args])

/-! ### Basic store lemmas -/

theorem lookupEntry_setEntryList_self {K V : Type} [DecidableEq K]
    (l : List (K × CacheStorageContent V)) (k : K) (e : CacheStorageContent V) :
    lookupEntry (setEntryList l k e) k = some e := by
  induction l with
  | nil => simp [setEntryList, lookupEntry]
  | cons p rest ih =>
    by_cases h : p.1 = k
    · simp [setEntryList, lookupEntry, h]
    · simp [setEntryList, lookupEntry, h, ih]

theorem lookupEntry_setEntryList_ne {K V : Type} [DecidableEq K]
    (l : List (K × CacheStorageContent V)) (k k' : K) (e : CacheStorageContent V)
    (h : k' ≠ k) :
    lookupEntry (setEntryList l k e) k' = lookupEntry l k' := by
  induction l with
  | nil => simp [setEntryList, lookupEntry, Ne.symm h]
  | cons p rest ih =>
    by_cases hp : p.1 = k
    · simp [setEntryList, lookupEntry, hp, Ne.symm h]
    · simp only [setEntryList, hp, if_false, lookupEntry]
      by_cases hq : p.1 = k'
      · simp [hq]
      · simp [hq, ih]

theorem lookupEntry_deleteEntryList_ne {K V : Type} [DecidableEq K]
    (l : List (K × CacheStorageContent V)) (k k' : K) (h : k' ≠ k) :
    lookupEntry (deleteEntryList l k) k' = lookupEntry l k' := by
  induction l with
  | nil => simp [deleteEntryList]
  | cons p rest ih =>
    by_cases hp : p.1 = k
    · simp [deleteEntryList, lookupEntry, hp, Ne.symm h]
    · simp only [deleteEntryList, hp, if_false, lookupEntry]
      by_cases hq : p.1 = k'
      · simp [hq]
      · simp [hq, ih]

theorem deleteEntryList_setEntryList_of_absent {K V : Type} [DecidableEq K]
    (l : List (K × CacheStorageContent V)) (k : K) (e : CacheStorageContent V)
    (h : lookupEntry l k = none) :
    deleteEntryList (setEntryList l k e) k = l := by
  induction l with
  | nil => simp [setEntryList, deleteEntryList]
  | cons p rest ih =>
    by_cases hp : p.1 = k
    · simp [lookupEntry, hp] at h
    · simp only [lookupEntry, hp, if_false] at h
      simp [setEntryList, deleteEntryList, hp, ih h]

theorem CacheStorage.get_set_self {K V : Type} [DecidableEq K]
    (c : CacheStorage K V) (k : K) (e : CacheStorageContent V) :
    (c.set k e).get k = some e :=
  lookupEntry_setEntryList_self c.entries k e

theorem CacheStorage.get_set_ne {K V : Type} [DecidableEq K]
    (c : CacheStorage K V) (k k' : K) (e : CacheStorageContent V) (h : k' ≠ k) :
    (c.set k e).get k' = c.get k' :=
  lookupEntry_setEntryList_ne c.entries k k' e h

theorem CacheStorage.get_delete_ne {K V : Type} [DecidableEq K]
    (c : CacheStorage K V) (k k' : K) (h : k' ≠ k) :
    (c.delete k).get k' = c.get k' :=
  lookupEntry_deleteEntryList_ne c.entries k k' h

theorem foldl_delete_get_ne {K V : Type} [DecidableEq K]
    (ts : List (TimerRec K)) (c : CacheStorage K V) (k : K)
    (h : ∀ t ∈ ts, t.key ≠ k) :
    (ts.foldl (fun c t => c.delete t.key) c).get k = c.get k := by
  induction ts generalizing c with
  | nil => rfl
  | cons t rest ih =>
    have hk : t.key ≠ k := h t (List.mem_cons_self t rest)
    have hr : ∀ t' ∈ rest, t'.key ≠ k := fun t' ht' => h t' (List.mem_cons_of_mem t ht')
    calc (List.foldl (fun c t => c.delete t.key) (c.delete t.key) rest).get k
        = (c.delete t.key).get k := ih (c.delete t.key) hr
      _ = c.get k := CacheStorage.get_delete_ne c t.key k (Ne.symm hk)

/-! ### Characterizations of the wrapper's call path -/

/-- The read path, src/index.ts lines 125-128: a present entry is returned
with no expiry comparison, no target invocation and no state change. -/
theorem memoizedCall_hit {A K V E : Type} [DecidableEq K] (w : WrapConfig A K)
    (target : Nat → A → Except E V) (args : A) (s : MemoState K V) (n : Nat)
    (e : CacheStorageContent V) (h : s.cache.get (deriveKey w args) = some e) :
    memoizedCall w target args s n = (.ok e.data, s, n) := by
  simp [memoizedCall, h]

/-- A miss on which the target throws: the error propagates and nothing is
stored (src/index.ts lines 130-135, the throw happens before `cache.set`). -/
theorem memoizedCall_miss_throw {A K V E : Type} [DecidableEq K] (w : WrapConfig A K)
    (target : Nat → A → Except E V) (args : A) (s : MemoState K V) (n : Nat) (e : E)
    (hmiss : s.cache.get (deriveKey w args) = none)
    (hthrow : target n args = .error e) :
    memoizedCall w target args s n = (.error e, s, n + 1) := by
  simp [memoizedCall, hmiss, hthrow]

/-- A miss on which the target returns: the result is returned, the entry is
stored under the derived key with the computed expiry, and the eviction timer
is appended (src/index.ts lines 130-149). -/
theorem memoizedCall_miss_ok {A K V E : Type} [DecidableEq K] (w : WrapConfig A K)
    (target : Nat → A → Except E V) (args : A) (s : MemoState K V) (n : Nat) (v : V)
    (hmiss : s.cache.get (deriveKey w args) = none)
    (hok : target n args = .ok v) :
    memoizedCall w target args s n =
      (.ok v,
        { s with
          cache := s.cache.set (deriveKey w args)
            { data := v, maxAge := jsExpiry w.maxAge s.now }
          timers := newTimers w (deriveKey w args) s.now s.timers },
        n + 1) := by
  simp [memoizedCall, hmiss, hok]

/-- Any call that returns a value leaves a matching entry in the cache and
accounts for at most one target invocation. -/
theorem memoizedCall_ok_stored {A K V E : Type} [DecidableEq K] (w : WrapConfig A K)
    (target : Nat → A → Except E V) (args : A) (s : MemoState K V) (n : Nat) (v : V)
    (h : (memoizedCall w target args s n).1 = .ok v) :
    (∃ e, (memoizedCall w target args s n).2.1.cache.get (deriveKey w args) = some e ∧
      e.data = v) ∧
    (memoizedCall w target args s n).2.2 ≤ n + 1 := by
  rcases hc : s.cache.get (deriveKey w args) with _ | e
  · rcases ht : target n args with e' | v'
    · rw [memoizedCall_miss_throw w target args s n e' hc ht] at h
      exact absurd h (by simp)
    · have heq := memoizedCall_miss_ok w target args s n v' hc ht
      rw [heq] at h
      have hv : v' = v := by simpa using h
      rw [heq]
      constructor
      · exact ⟨{ data := v', maxAge := jsExpiry w.maxAge s.now },
          CacheStorage.get_set_self s.cache (deriveKey w args) _, hv⟩
      · exact Nat.le_refl (n + 1)
  · have heq := memoizedCall_hit w target args s n e hc
    rw [heq] at h
    have hv : e.data = v := by simpa using h
    rw [heq]
    exact ⟨⟨e, hc, hv⟩, Nat.le_succ n⟩

/-- Membership in the timer list produced by a cache miss: either the timer
was already pending or it is the freshly scheduled one for the stored key. -/
theorem mem_newTimers {A K : Type} {w : WrapConfig A K} {key : K} {now : Int}
    {timers : List (TimerRec K)} {t : TimerRec K} (h : t ∈ newTimers w key now timers) :
    t ∈ timers ∨ t.key = key := by
  unfold newTimers at h
  split at h
  · split at h
    · rcases List.mem_append.mp h with hin | hin
      · exact Or.inl hin
      · exact Or.inr (by simpa using congrArg TimerRec.key (List.mem_singleton.mp hin))
    · exact Or.inl h
  · exact Or.inl h

/-- Advancing the clock when no pending timer comes due only moves the
clock. -/
theorem advanceTime_no_due {K V : Type} [DecidableEq K] (dt : Nat) (s : MemoState K V)
    (h : ∀ t ∈ s.timers, ¬ t.fireAt ≤ s.now + (dt : Int)) :
    advanceTime dt s = { s with now := s.now + (dt : Int) } := by
  unfold advanceTime
  rw [List.filter_eq_nil_iff.mpr (fun t ht => by simpa using h t ht),
    List.filter_eq_self.mpr (fun t ht => by simpa using h t ht)]
  rfl

/-- Advancing the clock past the deadline of the only pending timer fires
it: its key is deleted and the timer is no longer pending. -/
theorem advanceTime_single_due {K V : Type} [DecidableEq K] (dt : Nat)
    (s : MemoState K V) (t : TimerRec K) (hts : s.timers = [t])
    (h : t.fireAt ≤ s.now + (dt : Int)) :
    advanceTime dt s =
      { s with
        now := s.now + (dt : Int)
        cache := s.cache.delete t.key
        timers := [] } := by
  unfold advanceTime
  rw [hts]
  simp [h]

/-- Deleting a key right after storing it in a store that did not hold it
restores the original bindings. -/
theorem CacheStorage.get_delete_set_absent {K V : Type} [DecidableEq K]
    (c : CacheStorage K V) (k : K) (e : CacheStorageContent V) (h : c.get k = none) :
    ((c.set k e).delete k).get k = none := by
  show lookupEntry (deleteEntryList (setEntryList c.entries k e) k) k = none
  rw [deleteEntryList_setEntryList_of_absent c.entries k e h]
  exact h

/-! ### Entry preservation across intervening operations -/

/-- While an entry is present under a key, any sequence of operations that
contains no `memoizeClear` and during which no pending eviction timer for
that key comes due leaves the entry untouched. -/
theorem runOps_preserves_entry {A K V E : Type} [DecidableEq K] (w : WrapConfig A K)
    (target : Nat → A → Except E V) (ops : List (Op A)) (s : MemoState K V) (n : Nat)
    (k : K) (e : CacheStorageContent V)
    (hget : s.cache.get k = some e)
    (hts : ∀ t ∈ s.timers, t.key = k → s.now + (totalAdvance ops : Int) < t.fireAt)
    (hnc : hasNoClear ops = true) :
    (runOps w target ops (s, n)).1.cache.get k = some e := by
  induction ops generalizing s n with
  | nil => exact hget
  | cons op rest ih =>
    cases op with
    | call a =>
      have hta : totalAdvance (Op.call a :: rest) = totalAdvance rest := rfl
      rw [hta] at hts
      have hnc' : hasNoClear rest = true := hnc
      show (runOps w target rest (stepOp w target (Op.call a) (s, n))).1.cache.get k = some e
      rcases hc : s.cache.get (deriveKey w a) with _ | e'
      · rcases ht : target n a with e'' | v'
        · have hstep : stepOp w target (Op.call a) (s, n) = (s, n + 1) := by
            simp [stepOp, memoizedCall_miss_throw w target a s n e'' hc ht]
          rw [hstep]
          exact ih s (n + 1) hget hts hnc'
        · have hkne : k ≠ deriveKey w a := by
            intro hcontra
            rw [hcontra, hc] at hget
            exact Option.noConfusion hget
          have hstep : stepOp w target (Op.call a) (s, n) =
              ({ s with
                cache := s.cache.set (deriveKey w a)
                  { data := v', maxAge := jsExpiry w.maxAge s.now }
                timers := newTimers w (deriveKey w a) s.now s.timers }, n + 1) := by
            simp [stepOp, memoizedCall_miss_ok w target a s n v' hc ht]
          rw [hstep]
          refine ih _ (n + 1) ?_ ?_ hnc'
          · exact (CacheStorage.get_set_ne s.cache (deriveKey w a) k _ hkne).trans hget
          · intro t htmem htk
            have htmem' : t ∈ newTimers w (deriveKey w a) s.now s.timers := htmem
            rcases mem_newTimers htmem' with hin | hkey
            · exact hts t hin htk
            · exact absurd (htk ▸ hkey) hkne
      · have hstep : stepOp w target (Op.call a) (s, n) = (s, n) := by
          simp [stepOp, memoizedCall_hit w target a s n e' hc]
        rw [hstep]
        exact ih s n hget hts hnc'
    | advance dt =>
      have hnc' : hasNoClear rest = true := hnc
      have hta : totalAdvance (Op.advance dt :: rest) = dt + totalAdvance rest := rfl
      rw [hta] at hts
      show (runOps w target rest (stepOp w target (Op.advance dt) (s, n))).1.cache.get k
        = some e
      have hstep : stepOp w target (Op.advance dt) (s, n) = (advanceTime dt s, n) := rfl
      rw [hstep]
      have hdue : ∀ t ∈ s.timers.filter (fun t => decide (t.fireAt ≤ s.now + (dt : Int))),
          t.key ≠ k := by
        intro t htmem htk
        rcases List.mem_filter.mp htmem with ⟨hin, hle⟩
        have hle' : t.fireAt ≤ s.now + (dt : Int) := of_decide_eq_true hle
        have hgt := hts t hin htk
        push_cast at hgt
        omega
      refine ih (advanceTime dt s) n ?_ ?_ hnc'
      · show ((s.timers.filter (fun t => decide (t.fireAt ≤ s.now + (dt : Int)))).foldl
          (fun c t => c.delete t.key) s.cache).get k = some e
        rw [foldl_delete_get_ne _ s.cache k hdue]
        exact hget
      · intro t htmem htk
        have hin : t ∈ s.timers := (List.mem_filter.mp htmem).1
        have hgt := hts t hin htk
        show (advanceTime dt s).now + (totalAdvance rest : Int) < t.fireAt
        have : (advanceTime dt s).now = s.now + (dt : Int) := rfl
        rw [this]
        push_cast at hgt ⊢
        omega
    | clear fid =>
      exact absurd hnc (by simp [hasNoClear])

/-! ### Concrete fixtures for witnesses -/

deriving instance DecidableEq for Except

/-- A wrapper with no options: default key derivation, default `Map` cache,
no `maxAge`. Function identities: target `0`, wrapper `1`. -/
def exWrapPlain : WrapConfig Nat Nat :=
  { targetId := 0, wrapperId := 1, maxAge := none, cacheKey := none,
    argsFirst := fun a => a }

/-- The wrapper of `exCounter` configured with `{maxAge: 100}`. -/
def exWrapTtl : WrapConfig Nat Nat :=
  { targetId := 0, wrapperId := 1, maxAge := some (.num 100), cacheKey := none,
    argsFirst := fun a => a }

/-- The counter fixture of the spec's testable properties: each invocation
returns the number of earlier invocations. -/
def exCounter : Nat → Nat → Except String Nat := fun n _ => .ok n

/-- A target that throws on its first invocation and succeeds afterwards. -/
def exThrowFirst : Nat → Nat → Except String Nat := fun n _ =>
  if n = 0 then .error "failure" else .ok n

/-- A fresh world: time `0`, empty clearable cache, no timers, wrapper `1`
registered in `cacheStore`. -/
def exEmptyState : MemoState Nat Nat :=
  { now := 0, cache := { entries := [], hasClear := true }, timers := [],
    registered := [1] }

/-- A world holding an entry for key `7` that expired at `t = 5`, observed at
`t = 100`. -/
def exStaleState : MemoState Nat Nat :=
  { now := 100,
    cache := { entries := [(7, { data := 42, maxAge := .num 5 })], hasClear := true },
    timers := [], registered := [1] }

/-- A world holding a never-expiring entry for key `7`. -/
def exLiveState : MemoState Nat Nat :=
  { now := 0,
    cache := { entries := [(7, { data := 42, maxAge := .posInf })], hasClear := true },
    timers := [], registered := [1] }

/-- A world whose cache store has no `clear` method (a `WeakMap`-style
store), with wrapper `5` registered. -/
def exNoClearState : MemoState Nat Nat :=
  { now := 0, cache := { entries := [(7, { data := 42, maxAge := .posInf })], hasClear := false },
    timers := [], registered := [5] }

/-! ### The claims -/

/-- C10: On every call to a wrapped function, if the cache store holds an
entry under the derived key, the entry's stored data is returned even when
the entry's recorded expiry timestamp is earlier than the current time: the
read path performs no expiry comparison and no read-time eviction (the state
is returned unchanged and the target is not invoked), so removal of stale
entries depends entirely on the scheduled timer. -/
theorem read_path_ignores_expiry {A K V E : Type} [DecidableEq K] (w : WrapConfig A K)
    (target : Nat → A → Except E V) (args : A) (s : MemoState K V) (n : Nat)
    (e : CacheStorageContent V)
    (h : s.cache.get (deriveKey w args) = some e) :
    memoizedCall w target args s n = (.ok e.data, s, n) :=
  memoizedCall_hit w target args s n e h

/-- Witness for C10 at a concrete input: an entry that expired at `t = 5` is
still returned at `t = 100`, with no invocation and no eviction. -/
theorem read_path_ignores_expiry_witness :
    exStaleState.cache.get (deriveKey exWrapPlain 7) =
      some { data := 42, maxAge := JSNum.num 5 } ∧
    JSNum.num 5 ≠ JSNum.num exStaleState.now ∧
    memoizedCall exWrapPlain exCounter 7 exStaleState 0 = (.ok 42, exStaleState, 0) :=
  ⟨by decide, by decide,
    read_path_ignores_expiry exWrapPlain exCounter 7 exStaleState 0
      { data := 42, maxAge := JSNum.num 5 } (by decide)⟩

/-- C2: On a cache miss on which the target throws synchronously, the thrown
error propagates unchanged, the state (in particular the cache) is left
untouched, and a subsequent call with a key-equal argument list re-invokes
the target. -/
theorem sync_throw_propagates_uncached {A K V E : Type} [DecidableEq K]
    (w : WrapConfig A K) (target : Nat → A → Except E V) (args args₂ : A)
    (s : MemoState K V) (n : Nat) (e : E)
    (hmiss : s.cache.get (deriveKey w args) = none)
    (hthrow : target n args = .error e) :
    memoizedCall w target args s n = (.error e, s, n + 1) ∧
    (deriveKey w args₂ = deriveKey w args →
      (memoizedCall w target args₂ s (n + 1)).2.2 = n + 2) := by
  refine ⟨memoizedCall_miss_throw w target args s n e hmiss hthrow, ?_⟩
  intro hk
  have hmiss₂ : s.cache.get (deriveKey w args₂) = none := by rw [hk]; exact hmiss
  rcases ht : target (n + 1) args₂ with e' | v'
  · rw [memoizedCall_miss_throw w target args₂ s (n + 1) e' hmiss₂ ht]
  · rw [memoizedCall_miss_ok w target args₂ s (n + 1) v' hmiss₂ ht]

/-- Witness for C2 at a concrete input: the first call throws `"failure"`
without storing anything, and the retry with the same key invokes the target
again (and succeeds). -/
theorem sync_throw_propagates_uncached_witness :
    memoizedCall exWrapPlain exThrowFirst 7 exEmptyState 0 =
      (.error "failure", exEmptyState, 1) ∧
    (memoizedCall exWrapPlain exThrowFirst 7 exEmptyState 1).2.2 = 2 :=
  have h := sync_throw_propagates_uncached exWrapPlain exThrowFirst 7 7 exEmptyState 0
    "failure" (by decide) rfl
  ⟨h.1, h.2 rfl⟩

/-- C1: For any two calls whose argument lists produce the same derived key,
with no `memoizeClear` and no eviction-timer firing for that key intervening
between them, the two calls together invoke the target at most once (the
first accounts for at most one invocation and the second for none) and both
return the same stored result. -/
theorem same_key_calls_single_invocation {A K V E : Type} [DecidableEq K]
    (w : WrapConfig A K) (target : Nat → A → Except E V) (s₀ : MemoState K V)
    (n₀ : Nat) (a₁ a₂ : A) (ops : List (Op A)) (v : V)
    (hkey : deriveKey w a₂ = deriveKey w a₁)
    (h₁ : (memoizedCall w target a₁ s₀ n₀).1 = .ok v)
    (hnc : hasNoClear ops = true)
    (hts : ∀ t ∈ (memoizedCall w target a₁ s₀ n₀).2.1.timers,
      t.key = deriveKey w a₁ →
      (memoizedCall w target a₁ s₀ n₀).2.1.now + (totalAdvance ops : Int) < t.fireAt) :
    (memoizedCall w target a₁ s₀ n₀).2.2 ≤ n₀ + 1 ∧
    (memoizedCall w target a₂
      (runOps w target ops ((memoizedCall w target a₁ s₀ n₀).2)).1
      (runOps w target ops ((memoizedCall w target a₁ s₀ n₀).2)).2).1 = .ok v ∧
    (memoizedCall w target a₂
      (runOps w target ops ((memoizedCall w target a₁ s₀ n₀).2)).1
      (runOps w target ops ((memoizedCall w target a₁ s₀ n₀).2)).2).2.2 =
      (runOps w target ops ((memoizedCall w target a₁ s₀ n₀).2)).2 := by
  obtain ⟨⟨e, hstored, hdata⟩, hcount⟩ := memoizedCall_ok_stored w target a₁ s₀ n₀ v h₁
  have hpres := runOps_preserves_entry w target ops
    (memoizedCall w target a₁ s₀ n₀).2.1 (memoizedCall w target a₁ s₀ n₀).2.2
    (deriveKey w a₁) e hstored hts hnc
  have hget₂ : (runOps w target ops ((memoizedCall w target a₁ s₀ n₀).2)).1.cache.get
      (deriveKey w a₂) = some e := by
    rw [hkey]
    exact hpres
  have hhit := memoizedCall_hit w target a₂
    (runOps w target ops ((memoizedCall w target a₁ s₀ n₀).2)).1
    (runOps w target ops ((memoizedCall w target a₁ s₀ n₀).2)).2 e hget₂
  refine ⟨hcount, ?_, ?_⟩
  · rw [hhit, hdata]
  · rw [hhit]

/-- Witness for C1 at a concrete input: two calls with key `7` separated by
a time advance; the target runs once and both calls return `0`. -/
theorem same_key_calls_single_invocation_witness :
    (memoizedCall exWrapPlain exCounter 7 exEmptyState 0).2.2 ≤ 0 + 1 ∧
    (memoizedCall exWrapPlain exCounter 7
      (runOps exWrapPlain exCounter [Op.advance 3]
        ((memoizedCall exWrapPlain exCounter 7 exEmptyState 0).2)).1
      (runOps exWrapPlain exCounter [Op.advance 3]
        ((memoizedCall exWrapPlain exCounter 7 exEmptyState 0).2)).2).1 = .ok 0 ∧
    (memoizedCall exWrapPlain exCounter 7
      (runOps exWrapPlain exCounter [Op.advance 3]
        ((memoizedCall exWrapPlain exCounter 7 exEmptyState 0).2)).1
      (runOps exWrapPlain exCounter [Op.advance 3]
        ((memoizedCall exWrapPlain exCounter 7 exEmptyState 0).2)).2).2.2 =
      (runOps exWrapPlain exCounter [Op.advance 3]
        ((memoizedCall exWrapPlain exCounter 7 exEmptyState 0).2)).2 :=
  same_key_calls_single_invocation exWrapPlain exCounter exEmptyState 0 7 7
    [Op.advance 3] 0 rfl (by decide) (by decide) (by decide)

/-- Direct calls to the counter target enumerate the invocation indices. -/
theorem bypassCalls_counter (as : List Nat) (n : Nat) :
    bypassCalls exCounter as n =
      ((List.range' n as.length).map (Except.ok : Nat → Except String Nat),
        n + as.length) := by
  induction as generalizing n with
  | nil => simp [bypassCalls]
  | cons a rest ih =>
    simp only [bypassCalls, exCounter, ih, List.length_cons, List.range'_succ,
      List.map_cons, Prod.mk.injEq]
    refine ⟨trivial, by omega⟩

/-- C4: If a fixed `maxAge` of exactly zero is configured at wrap time, all
caching machinery is bypassed: `memoize` returns the target itself
(src/index.ts lines 107-109), so every call goes straight to the target — it
is invoked on each call, the state is untouched, and with the spec's counter
fixture a sequence of `k` calls returns `0, 1, ..., k-1`. -/
theorem maxAge_zero_bypasses_cache {A K V E : Type} :
    memoizeSetup (some (.num 0)) = .bypass ∧
    (∀ (target : Nat → A → Except E V) (s : MemoState K V) (n : Nat) (a : A),
      bypassStep target a s n = (target n a, s, n + 1)) ∧
    (∀ (k a : Nat),
      bypassCalls exCounter (List.replicate k a) 0 =
        ((List.range k).map Except.ok, k)) := by
  refine ⟨by decide, fun target s n a => rfl, fun k a => ?_⟩
  rw [bypassCalls_counter, List.length_replicate, List.range_eq_range']
  simp

/-- C6: `memoizeClear` raises the "not memoized" `TypeError` whenever its
argument is not registered in `cacheStore`, and the "can't be cleared"
`TypeError` whenever the associated store lacks a `clear` method; in both
failure cases the whole state — in particular the store contents — is left
unchanged. -/
theorem memoizeClear_failure_modes {K V : Type} [DecidableEq K] (fid : Nat)
    (s : MemoState K V) :
    (fid ∉ s.registered →
      memoizeClear fid s =
        (.error "Can\x27t clear a function that was not memoized!", s)) ∧
    (fid ∈ s.registered → s.cache.hasClear = false →
      memoizeClear fid s = (.error "The cache Map can\x27t be cleared!", s)) := by
  constructor
  · intro h
    simp [memoizeClear, h]
  · intro h₁ h₂
    simp [memoizeClear, h₁, h₂]

/-- Witness for C6 at concrete inputs: clearing an unregistered function id
and clearing a wrapper whose store lacks `clear`, both leaving the state
unchanged. -/
theorem memoizeClear_failure_modes_witness :
    memoizeClear 5 exEmptyState =
      (.error "Can\x27t clear a function that was not memoized!", exEmptyState) ∧
    memoizeClear 5 exNoClearState =
      (.error "The cache Map can\x27t be cleared!", exNoClearState) :=
  ⟨(memoizeClear_failure_modes 5 exEmptyState).1 (by decide),
   (memoizeClear_failure_modes 5 exNoClearState).2 (by decide) (by decide)⟩

/-- C8: Wrapping fails fast, synchronously at wrap time, with a descriptive
`TypeError` whenever the fixed `maxAge` value is negative or exceeds the
maximum representable timer duration of `2147483647` milliseconds (which
`Infinity` also does). -/
theorem invalid_fixed_maxAge_fails_fast (m : Int) :
    (2147483647 < m →
      memoizeSetup (some (.num m)) =
        .setupError "The `maxAge` option cannot exceed 2147483647.") ∧
    (m < 0 →
      memoizeSetup (some (.num m)) =
        .setupError "The `maxAge` option should not be a negative number.") ∧
    memoizeSetup (some .posInf) =
      .setupError "The `maxAge` option cannot exceed 2147483647." := by
  refine ⟨?_, ?_, by decide⟩
  · intro h
    simp [memoizeSetup, jsGt, jsLt, h, show m ≠ 0 by omega]
  · intro h
    simp [memoizeSetup, jsGt, jsLt, show ¬ (2147483647 : Int) < m by omega,
      show m ≠ 0 by omega, h]

/-- Witness for C8 at concrete inputs: `maxAge = 2147483648` and
`maxAge = -5` both fail at wrap time with the respective messages. -/
theorem invalid_fixed_maxAge_fails_fast_witness :
    memoizeSetup (some (.num 2147483648)) =
      .setupError "The `maxAge` option cannot exceed 2147483647." ∧
    memoizeSetup (some (.num (-5))) =
      .setupError "The `maxAge` option should not be a negative number." :=
  ⟨(invalid_fixed_maxAge_fails_fast 2147483648).1 (by decide),
   (invalid_fixed_maxAge_fails_fast (-5)).2.1 (by decide)⟩

/-- C9: `memoizeIsCached` returns `false` (not an error) for a function that
was never memoized; for a registered wrapper it reports exactly whether a
live (non-expired) entry exists under the derived key — the pure `Bool`
result neither invokes the target nor mutates any state — and it derives the
key exactly as the wrapper would, so key-equal argument lists agree. -/
theorem memoizeIsCached_spec {A K V : Type} [DecidableEq K] (w : WrapConfig A K)
    (fid : Nat) (args : A) (s : MemoState K V) :
    (fid ∉ s.registered → memoizeIsCached w fid args s = false) ∧
    (fid ∈ s.registered →
      (memoizeIsCached w fid args s = true ↔
        ∃ e, s.cache.get (deriveKey w args) = some e ∧
          jsGt e.maxAge (.num s.now) = true)) ∧
    (∀ args₂, deriveKey w args₂ = deriveKey w args →
      memoizeIsCached w fid args₂ s = memoizeIsCached w fid args s) := by
  refine ⟨?_, ?_, ?_⟩
  · intro h
    simp [memoizeIsCached, h]
  · intro h
    rcases hc : s.cache.get (deriveKey w args) with _ | e
    · simp [memoizeIsCached, h, hc]
    · simp [memoizeIsCached, h, hc]
  · intro args₂ hk
    simp [memoizeIsCached, hk]

/-- Witness for C9 at concrete inputs: an unregistered function id yields
`false`; a registered wrapper with a live entry yields `true` and the
liveness equivalence holds. -/
theorem memoizeIsCached_spec_witness :
    memoizeIsCached exWrapPlain 2 7 exLiveState = false ∧
    (memoizeIsCached exWrapPlain 1 7 exLiveState = true ↔
      ∃ e, exLiveState.cache.get (deriveKey exWrapPlain 7) = some e ∧
        jsGt e.maxAge (.num exLiveState.now) = true) ∧
    memoizeIsCached exWrapPlain 1 7 exLiveState = true :=
  ⟨(memoizeIsCached_spec exWrapPlain 2 7 exLiveState).1 (by decide),
   (memoizeIsCached_spec exWrapPlain 1 7 exLiveState).2.1 (by decide),
   by decide⟩

/-- C5: With `maxAge` supplied as a function of the call arguments, on a
cache hit it is not invoked; on a cache miss it is invoked exactly once,
only after the target has been invoked (a throwing target means it is not
consulted at all), with the same argument list that produced the key; and a
computed result of `0` means the result is returned without being stored
(the state is unchanged). -/
theorem computed_maxAge_once_after_target {A K V E : Type} [DecidableEq K]
    (w : WrapConfig A K) (maxAgeFn : A → JSNum) (target : Nat → A → Except E V)
    (args : A) (s : MemoState K V) (n : Nat) :
    (∀ e, s.cache.get (deriveKey w args) = some e →
      (memoizedCallComputed w maxAgeFn target args s n).2.2.2 = []) ∧
    (s.cache.get (deriveKey w args) = none →
      (∀ e, target n args = .error e →
        memoizedCallComputed w maxAgeFn target args s n = (.thrown e, s, n + 1, [])) ∧
      (∀ v, target n args = .ok v →
        (memoizedCallComputed w maxAgeFn target args s n).2.2.2 = [args] ∧
        (maxAgeFn args = .num 0 →
          memoizedCallComputed w maxAgeFn target args s n =
            (.ok v, s, n + 1, [args])))) := by
  refine ⟨?_, ?_⟩
  · intro e he
    simp [memoizedCallComputed, he]
  · intro hmiss
    refine ⟨?_, ?_⟩
    · intro e he
      simp [memoizedCallComputed, hmiss, he]
    · intro v hv
      refine ⟨?_, ?_⟩
      · simp only [memoizedCallComputed, hmiss, hv]
        rcases hm : maxAgeFn args with mv | _ | _ | _ <;> simp [hm] <;> split_ifs <;> rfl
      · intro hz
        simp [memoizedCallComputed, hmiss, hv, hz]

/-- Witness for C5 at a concrete input: a miss with a TTL function that
returns `0` — the TTL function is consulted exactly once with the call's
argument list, the computed value is returned, and nothing is stored. -/
theorem computed_maxAge_once_after_target_witness :
    (memoizedCallComputed exWrapPlain (fun _ => .num 0) exCounter 7
      exEmptyState 0).2.2.2 = [7] ∧
    memoizedCallComputed exWrapPlain (fun _ => .num 0) exCounter 7 exEmptyState 0 =
      (.ok 0, exEmptyState, 1, [7]) :=
  have h := (computed_maxAge_once_after_target exWrapPlain (fun _ => .num 0)
    exCounter 7 exEmptyState 0).2 (by decide)
  ⟨(h.2 0 rfl).1, (h.2 0 rfl).2 rfl⟩

/-- C3: With a finite positive fixed `maxAge` of `m` milliseconds, a cache
miss stores the entry and schedules a one-shot timer that deletes it `m`
milliseconds later: a call with the same key before expiry returns the
cached value without invoking the target, and once `m` milliseconds have
elapsed the entry has been deleted, so a further call re-invokes the
target. -/
theorem maxAge_timer_expiry {A K V E : Type} [DecidableEq K] (w : WrapConfig A K)
    (target : Nat → A → Except E V) (a : A) (s₀ : MemoState K V) (n₀ : Nat)
    (m : Int) (v : V) (dt₁ dt₂ : Nat)
    (hw : w.maxAge = some (.num m)) (hm : 1 ≤ m)
    (hmiss : s₀.cache.get (deriveKey w a) = none)
    (htimers : s₀.timers = [])
    (hok : target n₀ a = .ok v)
    (h1 : (dt₁ : Int) < m) (h2 : m ≤ (dt₁ : Int) + (dt₂ : Int)) :
    (memoizedCall w target a s₀ n₀).2.1.timers =
      [{ owner := w.targetId, fireAt := s₀.now + m, key := deriveKey w a }] ∧
    (memoizedCall w target a
      (advanceTime dt₁ (memoizedCall w target a s₀ n₀).2.1) (n₀ + 1)).1 = .ok v ∧
    (memoizedCall w target a
      (advanceTime dt₁ (memoizedCall w target a s₀ n₀).2.1) (n₀ + 1)).2.2 = n₀ + 1 ∧
    (advanceTime dt₂ (advanceTime dt₁ (memoizedCall w target a s₀ n₀).2.1)).cache.get
      (deriveKey w a) = none ∧
    (memoizedCall w target a
      (advanceTime dt₂ (advanceTime dt₁ (memoizedCall w target a s₀ n₀).2.1))
      (n₀ + 1)).2.2 = n₀ + 2 := by
  have hcall := memoizedCall_miss_ok w target a s₀ n₀ v hmiss hok
  have hnt : newTimers w (deriveKey w a) s₀.now s₀.timers =
      [{ owner := w.targetId, fireAt := s₀.now + m, key := deriveKey w a }] := by
    rw [htimers]
    unfold newTimers
    rw [hw]
    simp [jsTimeoutDelay, show ¬ m < 1 by omega]
  have hexp : jsExpiry w.maxAge s₀.now = .num (s₀.now + m) := by
    rw [hw]
    simp [jsExpiry, jsTruthy, jsAdd, show m ≠ 0 by omega]
  have hs₁ : (memoizedCall w target a s₀ n₀).2.1 =
      { s₀ with
        cache := s₀.cache.set (deriveKey w a)
          { data := v, maxAge := JSNum.num (s₀.now + m) }
        timers := [{ owner := w.targetId, fireAt := s₀.now + m, key := deriveKey w a }] } := by
    rw [hcall]
    simp [hnt, hexp]
  have hnodue : ∀ t ∈ (memoizedCall w target a s₀ n₀).2.1.timers,
      ¬ t.fireAt ≤ (memoizedCall w target a s₀ n₀).2.1.now + (dt₁ : Int) := by
    rw [hs₁]
    intro t ht
    have heq := List.mem_singleton.mp ht
    subst heq
    show ¬ (s₀.now + m ≤ s₀.now + (dt₁ : Int))
    omega
  have hadv₁ : advanceTime dt₁ (memoizedCall w target a s₀ n₀).2.1 =
      { s₀ with
        now := s₀.now + (dt₁ : Int)
        cache := s₀.cache.set (deriveKey w a)
          { data := v, maxAge := JSNum.num (s₀.now + m) }
        timers := [{ owner := w.targetId, fireAt := s₀.now + m, key := deriveKey w a }] } := by
    rw [advanceTime_no_due dt₁ _ hnodue, hs₁]
  have hget₂ : (advanceTime dt₁ (memoizedCall w target a s₀ n₀).2.1).cache.get
      (deriveKey w a) = some { data := v, maxAge := JSNum.num (s₀.now + m) } := by
    rw [hadv₁]
    exact CacheStorage.get_set_self _ _ _
  have hhit := memoizedCall_hit w target a
    (advanceTime dt₁ (memoizedCall w target a s₀ n₀).2.1) (n₀ + 1) _ hget₂
  have hdue : ({ owner := w.targetId, fireAt := s₀.now + m, key := deriveKey w a } : TimerRec K).fireAt ≤ (advanceTime dt₁ (memoizedCall w target a s₀ n₀).2.1).now + (dt₂ : Int) := by
    rw [hadv₁]
    show s₀.now + m ≤ s₀.now + (dt₁ : Int) + (dt₂ : Int)
    omega
  have hadv₂ := advanceTime_single_due dt₂
    (advanceTime dt₁ (memoizedCall w target a s₀ n₀).2.1)
    { owner := w.targetId, fireAt := s₀.now + m, key := deriveKey w a }
    (by rw [hadv₁]) hdue
  have hget₃ : (advanceTime dt₂
      (advanceTime dt₁ (memoizedCall w target a s₀ n₀).2.1)).cache.get
      (deriveKey w a) = none := by
    rw [hadv₂, hadv₁]
    show ((s₀.cache.set (deriveKey w a)
      { data := v, maxAge := JSNum.num (s₀.now + m) }).delete
      (deriveKey w a)).get (deriveKey w a) = none
    exact CacheStorage.get_delete_set_absent s₀.cache (deriveKey w a) _ hmiss
  refine ⟨by rw [hs₁], by rw [hhit], by rw [hhit], hget₃, ?_⟩
  rcases ht₃ : target (n₀ + 1) a with e' | v'
  · rw [memoizedCall_miss_throw w target a _ (n₀ + 1) e' hget₃ ht₃]
  · rw [memoizedCall_miss_ok w target a _ (n₀ + 1) v' hget₃ ht₃]

/-- Witness for C3 at a concrete input: `maxAge = 100`, a call at `t = 0`,
a hit at `t = 50`, and a re-invocation once `t = 300`. -/
theorem maxAge_timer_expiry_witness :
    (memoizedCall exWrapTtl exCounter 7 exEmptyState 0).2.1.timers =
      [{ owner := 0, fireAt := 100, key := 7 }] ∧
    (memoizedCall exWrapTtl exCounter 7
      (advanceTime 50 (memoizedCall exWrapTtl exCounter 7 exEmptyState 0).2.1) 1).1 =
      .ok 0 ∧
    (memoizedCall exWrapTtl exCounter 7
      (advanceTime 50 (memoizedCall exWrapTtl exCounter 7 exEmptyState 0).2.1) 1).2.2 = 1 ∧
    (advanceTime 250 (advanceTime 50
      (memoizedCall exWrapTtl exCounter 7 exEmptyState 0).2.1)).cache.get 7 = none ∧
    (memoizedCall exWrapTtl exCounter 7
      (advanceTime 250 (advanceTime 50
        (memoizedCall exWrapTtl exCounter 7 exEmptyState 0).2.1)) 1).2.2 = 2 :=
  maxAge_timer_expiry exWrapTtl exCounter 7 exEmptyState 0 100 0 50 250
    rfl (by decide) (by decide) rfl rfl (by decide) (by decide)

/-- State after `memoized(7)` at `t = 0` under `{maxAge: 100}`: entry stored,
eviction timer registered in `cacheTimerStore` under the target (id `0`). -/
def c7S1 : MemoState Nat Nat := (memoizedCall exWrapTtl exCounter 7 exEmptyState 0).2.1

/-- State at `t = 20`, before the clear. -/
def c7S2 : MemoState Nat Nat := advanceTime 20 c7S1

/-- State after `memoizeClear(memoized)` at `t = 20`: the clear looks up
`cacheTimerStore` under the wrapper (id `1`). -/
def c7S3 : MemoState Nat Nat := (memoizeClear 1 c7S2).2

/-- State after calling `memoized(7)` again at `t = 20`: a fresh entry that
should live until `t = 120`. -/
def c7S4 : MemoState Nat Nat := (memoizedCall exWrapTtl exCounter 7 c7S3 1).2.1

/-- State at `t = 100`. -/
def c7S5 : MemoState Nat Nat := advanceTime 80 c7S4

/-- C7 (the claim fails on the code): `memoizeClear` succeeds and empties the
store, but because the timers were registered in `cacheTimerStore` under the
target function (src/index.ts lines 144-146) while the clear looks them up
under the wrapper (src/index.ts line 238), the outstanding eviction timer
survives the clear; it later fires and deletes an entry that was added after
the clear — at `t = 100`, twenty milliseconds before that entry's own expiry
at `t = 120`. -/
theorem memoizeClear_leaves_timer_pending :
    (memoizeClear 1 c7S2).1 = .ok () ∧
    c7S3.cache.entries = [] ∧
    c7S3.timers = [{ owner := 0, fireAt := 100, key := 7 }] ∧
    c7S4.cache.get 7 = some { data := 1, maxAge := .num 120 } ∧
    c7S4.timers = [{ owner := 0, fireAt := 100, key := 7 },
      { owner := 0, fireAt := 120, key := 7 }] ∧
    c7S5.cache.get 7 = none := by
  decide

end Memoize
